import Mathlib

/-!
Shallow embedding of the chronological Glicko-2 rating engine of
`table_tennis_stats` (`src/utils/glickoHelpers.py`, summary reducer used by
`src/app.py`).

Modelling conventions:
* The per-competitor rating state held by a `glicko2.Player()` object is a
  `PState α` (rating, rd, vol); the external `glicko2` library's in-place
  `update_player` is kept abstract as a function parameter
  `upd : PState α → α → α → α → PState α` (self pre-state, opponent rating
  list head, opponent RD list head, outcome value).  The replayer source
  never inspects the numbers it stores beyond subtraction, the logistic
  expected-outcome formula and the final 2-decimal rounding, so the pipeline
  is generic in a linear ordered field `α`; statements needing the real
  logistic formula instantiate `α := ℝ`, executable witnesses use `α := ℚ`.
* `player_cache` (a Python dict keyed by `int(playerId)`) is a function
  `ℤ → Option (CacheEntry α)`.  Sequential reads/writes reproduce the
  aliasing of the dict exactly (the same entry object is seen twice when
  `winnerId = loserId`).
* Exceptions caught by the per-match `try/except` (the `KeyError` of a cache
  lookup, or any other per-row failure) make the loop write `np.nan` into
  `winner_rating_pre`; the final `dropna` removes those rows.  This is
  modelled by the per-match step returning `none` instead of a row; the
  final `List.filterMap id` is the `dropna`.
* `pandas.DataFrame.sort_values('matchDate')` is kept as a parameter
  `sortRows`; the concrete routine pandas dispatches to for an object-dtype
  column (numpy's compare-based `aquicksort`, i.e. classic introsort with an
  insertion-sort finish below 16 elements and a heapsort fallback at depth
  `2*msb(n)`) is ported below as `npSortByDate`.
-/

namespace TTS

/-- Python scalar values as they can appear in the mixed-typed `dnf` column
of the matches DataFrame. -/
inductive PyVal where
  | pybool (b : Bool)
  | pyint (n : ℤ)
  | pyfloat (q : ℚ)
  | pystr (s : String)
  | pynone
  | pynan
  deriving DecidableEq, Inhabited

/-- Python/numpy elementwise equality of a `dnf` cell with the boolean
`False` (the mask `sorted_matches_df['dnf'] == False`): booleans compare by
value, and numeric values compare equal to `False` exactly when they are
zero; strings, `None` and `NaN` never compare equal to `False`. -/
def pyEqFalse : PyVal → Bool
  | .pybool b => !b
  | .pyint n => n == 0
  | .pyfloat q => q == 0
  | .pystr _ => false
  | .pynone => false
  | .pynan => false

/-- Python/numpy elementwise equality of a `dnf` cell with the string
`'False'` (the mask `sorted_matches_df['dnf'] == 'False'`). -/
def pyEqStrFalse : PyVal → Bool
  | .pystr s => s == "False"
  | _ => false

/-- One row of the input matches DataFrame.  `matchDate` is the sortable
date key; `winnerId`/`loserId` are `none` when the cell is null (removed by
`dropna`); `dnf` keeps its mixed Python typing; `outcome` is the value of
the `Winner` column (`'home'`, `'away'`, `'tie'`, or absent).  The remaining
object-dtype metadata columns (names, countries, `EventName`) are carried
through the replay unchanged and are irrelevant to every claim; they are
represented by `documentCode` and `eventId`. -/
structure MatchRow where
  eventId : ℤ
  documentCode : String
  matchDate : ℤ
  winnerId : Option ℤ
  loserId : Option ℤ
  dnf : PyVal
  outcome : Option String
  deriving DecidableEq, Inhabited

/-- The mutable numeric state of one `glicko2.Player()` object. -/
structure PState (α : Type) where
  rating : α
  rd : α
  vol : α
  deriving DecidableEq

/-- A fresh `glicko2.Player()`: rating 1500, deviation 350, volatility 0.06. -/
def defaultPlayer (α : Type) [LinearOrderedField α] : PState α :=
  { rating := 1500, rd := 350, vol := 3 / 50 }

/-- One `player_cache` entry: `{'glicko_obj': ..., 'match_count': ...}`. -/
structure CacheEntry (α : Type) where
  glicko : PState α
  matchCount : ℕ
  deriving DecidableEq

/-- The `player_cache` dict, keyed by `int(playerId)`. -/
def Cache (α : Type) := ℤ → Option (CacheEntry α)

/-- Cache initialization from the roster: one default entry per
`playerId` (duplicate roster ids collapse onto the same single entry, as in
the dict comprehension). -/
def mkCache (α : Type) [LinearOrderedField α] (players : List ℤ) : Cache α :=
  fun i => if i ∈ players then some { glicko := defaultPlayer α, matchCount := 0 } else none

/-- Overwrite the cache entry stored under key `i`. -/
def cacheSet {α : Type} (c : Cache α) (i : ℤ) (e : CacheEntry α) : Cache α :=
  fun j => if j = i then some e else c j

/-- Read the entry under key `i`; only used in branches where the key is
known to be present, the default is never observed. -/
def cacheGet {α : Type} [LinearOrderedField α] (c : Cache α) (i : ℤ) : CacheEntry α :=
  (c i).getD { glicko := defaultPlayer α, matchCount := 0 }

/-- The statement `entry['match_count'] += 1` on the entry under key `i`. -/
def cacheBump {α : Type} (c : Cache α) (i : ℤ) : Cache α :=
  fun j => if j = i then (c i).map (fun e => { e with matchCount := e.matchCount + 1 }) else c j

/-- Signature of the external `glicko2` in-place update
`player.update_player([opp_rating], [opp_rd], [outcome])`, as a pure
function from the player's pre-call state and the three arguments to the
player's post-call state. -/
def UpdateFn (α : Type) : Type := PState α → α → α → α → PState α

/-- One row of the `ratings_history` output. -/
structure HistoryRow (α : Type) where
  eventId : ℤ
  documentCode : String
  matchDate : ℤ
  winnerId : ℤ
  loserId : ℤ
  outcome : Option String
  winner_rating_pre : α
  winner_rd_pre : α
  winner_vol_pre : α
  loser_rating_pre : α
  loser_rd_pre : α
  loser_vol_pre : α
  winner_rating_post : α
  loser_rating_post : α
  winner_rd_post : α
  loser_rd_post : α
  winner_rating_delta : α
  loser_rating_delta : α
  rating_difference_pre : α
  expected_outcome : α
  winner_matches_played : ℕ
  loser_matches_played : ℕ
  deriving DecidableEq, Inhabited

variable {α : Type}

/-- The body of the per-match `try` block (`glickoHelpers.py` lines
103-158).  `E` is the expected-outcome formula of lines 111-112 (kept as a
parameter so the pipeline stays generic in `α`; it is fixed to the real
logistic formula `glickoExpected` where a claim is about its value), `upd`
the external glicko2 update.  Returns the cache after the match together
with `some row` on success; a failed cache lookup (Python `KeyError`, caught
at line 160) or a null id leaves the cache untouched and yields no row.
Faithfulness notes: the loser's `update_player` call (line 144) reads
`winner_obj.rating` / `winner_obj.rd` after the winner object was already
mutated in place by line 141, which the sequential `cacheSet`/`cacheGet`
reproduces, including the aliasing when `winnerId = loserId`; the post
snapshots and the match counters are read after both updates and both
increments, as in lines 146-154. -/
def processMatch [LinearOrderedField α] (E : α → α → α) (upd : UpdateFn α)
    (cache : Cache α) (m : MatchRow) : Cache α × Option (HistoryRow α) :=
  match m.winnerId, m.loserId with
  | some winner_id, some loser_id =>
    match cache winner_id, cache loser_id with
    | some winnerEntry, some loserEntry =>
      let winner_pre := winnerEntry.glicko
      let loser_pre := loserEntry.glicko
      let expected := E winner_pre.rating loser_pre.rating
      let tie := m.outcome = some "tie"
      let sw : α := if tie then 1 / 2 else 1
      let sl : α := if tie then 1 / 2 else 0
      let w1 := upd winner_pre loser_pre.rating loser_pre.rd sw
      let c1 := cacheSet cache winner_id { winnerEntry with glicko := w1 }
      let lCur := cacheGet c1 loser_id
      let wCur := cacheGet c1 winner_id
      let l1 := upd lCur.glicko wCur.glicko.rating wCur.glicko.rd sl
      let c2 := cacheSet c1 loser_id { lCur with glicko := l1 }
      let c3 := cacheBump c2 winner_id
      let c4 := cacheBump c3 loser_id
      let wPost := cacheGet c4 winner_id
      let lPost := cacheGet c4 loser_id
      (c4, some {
        eventId := m.eventId
        documentCode := m.documentCode
        matchDate := m.matchDate
        winnerId := winner_id
        loserId := loser_id
        outcome := m.outcome
        winner_rating_pre := winner_pre.rating
        winner_rd_pre := winner_pre.rd
        winner_vol_pre := winner_pre.vol
        loser_rating_pre := loser_pre.rating
        loser_rd_pre := loser_pre.rd
        loser_vol_pre := loser_pre.vol
        winner_rating_post := wPost.glicko.rating
        loser_rating_post := lPost.glicko.rating
        winner_rd_post := wPost.glicko.rd
        loser_rd_post := lPost.glicko.rd
        winner_rating_delta := wPost.glicko.rating - winner_pre.rating
        loser_rating_delta := lPost.glicko.rating - loser_pre.rating
        rating_difference_pre := winner_pre.rating - loser_pre.rating
        expected_outcome := expected
        winner_matches_played := wPost.matchCount
        loser_matches_played := lPost.matchCount })
    | _, _ => (cache, none)
  | _, _ => (cache, none)

/-- The main replay loop over the filtered, sorted matches; each iteration
threads the cache and records either a history row or the skip marker. -/
def replaySteps [LinearOrderedField α] (E : α → α → α) (upd : UpdateFn α) :
    Cache α → List MatchRow → Cache α × List (Option (HistoryRow α))
  | c, [] => (c, [])
  | c, m :: ms =>
    let r := processMatch E upd c m
    let rest := replaySteps E upd r.1 ms
    (rest.1, r.2 :: rest.2)

/-- Lines 43-51: sort by `matchDate`, keep rows whose `dnf` cell compares
equal to `False` or to `'False'`, then drop rows with a null participant
id. -/
def matchesToRate (sortRows : List MatchRow → List MatchRow)
    (matchList : List MatchRow) : List MatchRow :=
  ((sortRows matchList).filter (fun m => pyEqFalse m.dnf || pyEqStrFalse m.dnf)).filter
    (fun m => m.winnerId.isSome && m.loserId.isSome)

/-- Round-half-to-even to an integer, the tie rule used by `numpy.round`. -/
def roundHalfEven [LinearOrderedField α] [FloorRing α] (x : α) : ℤ :=
  if x - ⌊x⌋ < 1 / 2 then ⌊x⌋
  else if 1 / 2 < x - ⌊x⌋ then ⌊x⌋ + 1
  else if Even ⌊x⌋ then ⌊x⌋ else ⌊x⌋ + 1

/-- The `.round(2)` applied to every float64 column of the result (line
176), modelled exactly at 2 decimal places. -/
def round2 [LinearOrderedField α] [FloorRing α] (x : α) : α :=
  (roundHalfEven (100 * x) : α) / 100

/-- Lines 175-181: every float64 column of a result row is rounded to two
decimals; `winnerId`, `loserId` and the two `matches_played` columns are
cast with `.astype(int)`, which is the identity here since the model keeps
them as integers (the arrays are int-dtype from the start). -/
def normalizeRow [LinearOrderedField α] [FloorRing α] (r : HistoryRow α) : HistoryRow α :=
  { r with
    winner_rating_pre := round2 r.winner_rating_pre
    winner_rd_pre := round2 r.winner_rd_pre
    winner_vol_pre := round2 r.winner_vol_pre
    loser_rating_pre := round2 r.loser_rating_pre
    loser_rd_pre := round2 r.loser_rd_pre
    loser_vol_pre := round2 r.loser_vol_pre
    winner_rating_post := round2 r.winner_rating_post
    loser_rating_post := round2 r.loser_rating_post
    winner_rd_post := round2 r.winner_rd_post
    loser_rd_post := round2 r.loser_rd_post
    winner_rating_delta := round2 r.winner_rating_delta
    loser_rating_delta := round2 r.loser_rating_delta
    rating_difference_pre := round2 r.rating_difference_pre
    expected_outcome := round2 r.expected_outcome }

/-- The whole of `calculate_glicko2_ratings`: build the cache from the
roster, sort and filter the matches, run the replay loop, drop the rows of
skipped matches (`dropna(subset=['winner_rating_pre'])`), and normalize the
numeric output.  The final cache is returned alongside the history so that
end-of-replay counter state can be stated. -/
def calculate_glicko2_ratings [LinearOrderedField α] [FloorRing α]
    (E : α → α → α) (upd : UpdateFn α) (sortRows : List MatchRow → List MatchRow)
    (players : List ℤ) (matchList : List MatchRow) :
    List (HistoryRow α) × Cache α :=
  let cache0 := mkCache α players
  let toRate := matchesToRate sortRows matchList
  let res := replaySteps E upd cache0 toRate
  ((res.2.filterMap id).map normalizeRow, res.1)

/-- The expected-outcome formula of lines 111-112:
`1 / (1 + math.pow(10, (loser_rating_pre - winner_rating_pre) / 400))`. -/
noncomputable def glickoExpected (w l : ℝ) : ℝ :=
  1 / (1 + (10 : ℝ) ^ ((l - w) / 400))

/-!
Port of the sort actually performed by `matches_df.sort_values('matchDate')`
(line 43).  With no `kind` argument pandas passes `kind='quicksort'` to
`ndarray.argsort`; for the object-dtype `matchDate` column (dates are read
from CSV as strings) numpy dispatches to its generic compare-based
`aquicksort`: median-of-3 introsort on the index array, switching to
insertion sort for partitions of fewer than 16 elements and to `aheapsort`
for frames whose depth budget `2*msb(n)` is exhausted.  Dates are modelled
as integers; the algorithm only compares them.  The loops below mirror the
C pointer loops; the `fuel` arguments only make the recursion structural
and are large enough never to run out on the ranges the algorithm visits.
-/

/-- Swap two entries of the index array. -/
def aswap (t : Array ℕ) (i j : ℕ) : Array ℕ :=
  let a := t[i]!
  let b := t[j]!
  (t.set! i b).set! j a

/-- The scan `do ++pi; while (v[*pi] < vp)` starting at the already
incremented index. -/
def scanUp (v : Array ℤ) (t : Array ℕ) (vp : ℤ) : ℕ → ℕ → ℕ
  | i, 0 => i
  | i, fuel + 1 => if v[t[i]!]! < vp then scanUp v t vp (i + 1) fuel else i

/-- The scan `do --pj; while (vp < v[*pj])` starting at the already
decremented index. -/
def scanDown (v : Array ℤ) (t : Array ℕ) (vp : ℤ) : ℕ → ℕ → ℕ
  | j, 0 => j
  | j, fuel + 1 => if vp < v[t[j]!]! then scanDown v t vp (j - 1) fuel else j

/-- The partition exchange loop: scan from both ends, stop when the
pointers cross, otherwise swap and continue. -/
def partitionLoop (v : Array ℤ) (vp : ℤ) : Array ℕ → ℕ → ℕ → ℕ → Array ℕ × ℕ
  | t, pi, _, 0 => (t, pi)
  | t, pi, pj, fuel + 1 =>
    let piNew := scanUp v t vp (pi + 1) (v.size + 1)
    let pjNew := scanDown v t vp (pj - 1) (v.size + 1)
    if pjNew ≤ piNew then (t, piNew)
    else partitionLoop v vp (aswap t piNew pjNew) piNew pjNew fuel

/-- One median-of-3 partition of `t[pl..pr]`; returns the array and the
final pivot position `pi`. -/
def partitionRange (v : Array ℤ) (t : Array ℕ) (pl pr : ℕ) : Array ℕ × ℕ :=
  let pm := pl + (pr - pl) / 2
  let t := if v[t[pm]!]! < v[t[pl]!]! then aswap t pm pl else t
  let t := if v[t[pr]!]! < v[t[pm]!]! then aswap t pr pm else t
  let t := if v[t[pm]!]! < v[t[pl]!]! then aswap t pm pl else t
  let vp := v[t[pm]!]!
  let t := aswap t pm (pr - 1)
  let res := partitionLoop v vp t pl (pr - 1) (v.size + 1)
  (aswap res.1 res.2 (pr - 1), res.2)

/-- The inner `while (pj > pl && vp < v[*pk])` shift of the insertion-sort
finish, followed by the final `*pj = vi`. -/
def insertShift (v : Array ℤ) (vi : ℕ) (pl : ℕ) : Array ℕ → ℕ → ℕ → Array ℕ
  | t, j, 0 => t.set! j vi
  | t, j, fuel + 1 =>
    if pl < j ∧ v[vi]! < v[t[j - 1]!]! then
      insertShift v vi pl (t.set! j (t[j - 1]!)) (j - 1) fuel
    else t.set! j vi

/-- The insertion sort run on a small partition `t[pl..pr]`. -/
def insertionRange (v : Array ℤ) (pl pr : ℕ) : Array ℕ → ℕ → ℕ → Array ℕ
  | t, _, 0 => t
  | t, i, fuel + 1 =>
    if i ≤ pr then insertionRange v pl pr (insertShift v (t[i]!) pl t i i) (i + 1) fuel
    else t

/-- The sift loop shared by both phases of numpy's `aheapsort`, on the
1-based subheap view `a[k] = t[pl + k - 1]` of length `n`. -/
def heapSift (v : Array ℤ) (pl n tmp : ℕ) : Array ℕ → ℕ → ℕ → ℕ → Array ℕ
  | t, i, _, 0 => t.set! (pl + i - 1) tmp
  | t, i, j, fuel + 1 =>
    if j ≤ n then
      let j := if j < n ∧ v[t[pl + j - 1]!]! < v[t[pl + j]!]! then j + 1 else j
      if v[tmp]! < v[t[pl + j - 1]!]! then
        heapSift v pl n tmp (t.set! (pl + i - 1) (t[pl + j - 1]!)) j (j + j) fuel
      else t.set! (pl + i - 1) tmp
    else t.set! (pl + i - 1) tmp

/-- The heap construction phase (`for (l = n >> 1; l > 0; --l)`). -/
def heapBuild (v : Array ℤ) (pl n : ℕ) : Array ℕ → ℕ → Array ℕ
  | t, 0 => t
  | t, l + 1 => heapBuild v pl n (heapSift v pl n (t[pl + l]!) t (l + 1) (2 * (l + 1)) (n + 2)) l

/-- The extraction phase (`for (; n > 1;)`), on the current heap size. -/
def heapExtract (v : Array ℤ) (pl : ℕ) : Array ℕ → ℕ → Array ℕ
  | t, 0 => t
  | t, 1 => t
  | t, n + 2 =>
    let tmp := t[pl + (n + 2) - 1]!
    let t := t.set! (pl + (n + 2) - 1) (t[pl]!)
    let t := heapSift v pl (n + 1) tmp t 1 2 (n + 3)
    heapExtract v pl t (n + 1)

/-- numpy's `aheapsort` on the subrange of `t` starting at `pl`, length `n`. -/
def heapsortRange (v : Array ℤ) (t : Array ℕ) (pl n : ℕ) : Array ℕ :=
  heapExtract v pl (heapBuild v pl n t (n / 2)) n

/-- The introsort driver of `aquicksort`.  `checkDepth` distinguishes a
frame start (initial entry or stack pop, where an exhausted `cdepth` budget
diverts the whole range to `aheapsort`) from the continuation of the inner
`while` loop, which never re-checks; each partition stores `cdepth - 1`
both for the continued smaller side and for the deferred larger side. -/
def aqsRec (v : Array ℤ) : Bool → Array ℕ → ℕ → ℕ → ℤ → ℕ → Array ℕ
  | _, t, _, _, _, 0 => t
  | checkDepth, t, pl, pr, cdepth, fuel + 1 =>
    if checkDepth ∧ cdepth < 0 then heapsortRange v t pl (pr + 1 - pl)
    else if 15 < pr - pl then
      let res := partitionRange v t pl pr
      let pivot := res.2
      if pivot - pl < pr - pivot then
        let t2 := aqsRec v false res.1 pl (pivot - 1) (cdepth - 1) fuel
        aqsRec v true t2 (pivot + 1) pr (cdepth - 1) fuel
      else
        let t2 := aqsRec v false res.1 (pivot + 1) pr (cdepth - 1) fuel
        aqsRec v true t2 pl (pivot - 1) (cdepth - 1) fuel
    else insertionRange v pl pr t (pl + 1) (pr + 1 - pl)

/-- Structural computation of `⌊log₂ n⌋` (numpy's `npy_get_msb`, the
position of the most significant set bit; 0 for inputs below 2).  The
first argument is fuel bounding the number of halvings. -/
def msbAux : ℕ → ℕ → ℕ
  | 0, _ => 0
  | fuel + 1, n => if 2 ≤ n then msbAux fuel (n / 2) + 1 else 0

/-- Position of the most significant bit of `n` (`npy_get_msb`). -/
def npyGetMsb (n : ℕ) : ℕ := msbAux n n

/-- The call `ndarray.argsort(kind='quicksort')` on an integer key array, as pandas
`nargsort` invokes it for an ascending single-column `sort_values` with no
nulls: the identity index array permuted by `aquicksort` with depth budget
`2 * msb(n)`. -/
def npArgsort (v : Array ℤ) : Array ℕ :=
  if v.size = 0 then #[]
  else aqsRec v true (Array.range v.size) 0 (v.size - 1) (2 * npyGetMsb v.size) (v.size + 1)

/-- The call `matches_df.sort_values('matchDate')` (line 43): take the rows in the
order given by the argsort of the date column. -/
def npSortByDate (ms : List MatchRow) : List MatchRow :=
  let arr := ms.toArray
  let idx := npArgsort (arr.map (fun m => m.matchDate))
  (idx.map (fun i => arr[i]!)).toList

/-!
Concrete instantiations used by executable witnesses.  The external
`glicko2.Player.update_player` and the expected-outcome formula are
parameters of the generic pipeline; witnesses instantiate them with simple
rational-valued functions so that closed statements evaluate in the kernel.
-/

/-- Witness instantiation of the glicko2 update: leave the state unchanged. -/
def constUpd : UpdateFn ℚ := fun p _ _ _ => p

/-- Witness instantiation of the glicko2 update: the new deviation is half
the opponent's deviation argument (so the update result genuinely depends
on the opponent input, and updating twice differs from updating once). -/
def halfRdUpd : UpdateFn ℚ := fun p _ oppRd _ =>
  { rating := p.rating, rd := oppRd / 2, vol := p.vol }

/-- Witness instantiation of the expected-outcome formula. -/
def subE : ℚ → ℚ → ℚ := fun w l => w - l

/-- A single completed (non-tie) match between competitors 1 and 2. -/
def exM : MatchRow :=
  { eventId := 7, documentCode := "M1", matchDate := 20210101,
    winnerId := some 1, loserId := some 2, dnf := .pybool false, outcome := some "home" }

/-- A single match tagged as a tie between competitors 1 and 2. -/
def tieM : MatchRow :=
  { eventId := 7, documentCode := "T1", matchDate := 20210101,
    winnerId := some 1, loserId := some 2, dnf := .pybool false, outcome := some "tie" }

/-- A match whose participants are not in the two-player roster cache. -/
def exBadM : MatchRow :=
  { eventId := 9, documentCode := "B1", matchDate := 20210102,
    winnerId := some 5, loserId := some 6, dnf := .pybool false, outcome := some "home" }

/-- Seventeen matches sharing one matchDate, with pairwise distinct
document codes, all between the two roster competitors.  Seventeen is the
smallest size at which numpy's `aquicksort` takes its partitioning branch
instead of plain (stable) insertion sort. -/
def eqDateMs : List MatchRow :=
  (List.range 17).map (fun i =>
    { eventId := 1, documentCode := "D" ++ toString i, matchDate := 20210101,
      winnerId := some 1, loserId := some 2, dnf := .pybool false, outcome := some "home" })

/-- The inclusion predicate of lines 45-51 as one boolean: the `dnf` cell
compares equal to `False` or to `'False'`, and both participant ids are
non-null. -/
def includedMatch (m : MatchRow) : Bool :=
  (pyEqFalse m.dnf || pyEqStrFalse m.dnf) && (m.winnerId.isSome && m.loserId.isSome)

/-- A match whose DNF cell holds the integer 0 (not the boolean `False`
and not the string `'False'`). -/
def exDnfZeroM : MatchRow :=
  { eventId := 3, documentCode := "Z1", matchDate := 20210103,
    winnerId := some 1, loserId := some 2, dnf := .pyint 0, outcome := some "home" }

/-- Both participant ids of a match are present and resolve in the
roster. -/
def rosterHas (players : List ℤ) (m : MatchRow) : Bool :=
  match m.winnerId, m.loserId with
  | some w, some l => decide (w ∈ players) && decide (l ∈ players)
  | _, _ => false

/-- How often competitor `p` appears on a history row (0, 1, or 2 — the
latter when a degenerate match lists the same id as winner and loser). -/
def appCount {α : Type} (p : ℤ) (r : HistoryRow α) : ℕ :=
  (if r.winnerId = p then 1 else 0) + (if r.loserId = p then 1 else 0)

/-- Appearance count through the optional row of one replay step. -/
def appCountO {α : Type} (p : ℤ) : Option (HistoryRow α) → ℕ
  | none => 0
  | some r => appCount p r

/-- Total number of appearances of competitor `p` in a list of history
rows. -/
def appsIn {α : Type} (p : ℤ) (rows : List (HistoryRow α)) : ℕ :=
  (rows.map (appCount p)).sum

/-- A degenerate match listing competitor 1 as both winner and loser. -/
def selfM : MatchRow :=
  { eventId := 4, documentCode := "S1", matchDate := 20210104,
    winnerId := some 1, loserId := some 1, dnf := .pybool false, outcome := some "home" }

/-- A value that is an exact multiple of one hundredth, i.e. a fixed point
of rounding to two decimal places. -/
def hundredth {α : Type} [LinearOrderedField α] (x : α) : Prop :=
  ∃ k : ℤ, x = (k : α) / 100

/-- All fourteen float64 columns of a history row hold two-decimal
values. -/
def rowRounded {α : Type} [LinearOrderedField α] (r : HistoryRow α) : Prop :=
  hundredth r.winner_rating_pre ∧ hundredth r.winner_rd_pre ∧
    hundredth r.winner_vol_pre ∧ hundredth r.loser_rating_pre ∧
    hundredth r.loser_rd_pre ∧ hundredth r.loser_vol_pre ∧
    hundredth r.winner_rating_post ∧ hundredth r.loser_rating_post ∧
    hundredth r.winner_rd_post ∧ hundredth r.loser_rd_post ∧
    hundredth r.winner_rating_delta ∧ hundredth r.loser_rating_delta ∧
    hundredth r.rating_difference_pre ∧ hundredth r.expected_outcome

/-- One collapsed final-summary entry for a competitor: the last-known
rating state together with the date of the selected history row. -/
structure FinalStats (α : Type) where
  rating : α
  deviation : α
  volatility : α
  matches_played : ℕ
  lastDate : ℤ
  deriving DecidableEq

/-- Modelled from the spec: the competitor-side view of one history row —
the winner side carries the winner's post-match rating and deviation and
counter, the loser side the loser's.  The history schema stores no
post-match volatility column, so the retained volatility is the row's
pre-match value for that side (§3 Rating History Row). -/
def sideStats {α : Type} (r : HistoryRow α) (winnerSide : Bool) : ℤ × FinalStats α :=
  if winnerSide then
    (r.winnerId,
      { rating := r.winner_rating_post, deviation := r.winner_rd_post,
        volatility := r.winner_vol_pre, matches_played := r.winner_matches_played,
        lastDate := r.matchDate })
  else
    (r.loserId,
      { rating := r.loser_rating_post, deviation := r.loser_rd_post,
        volatility := r.loser_vol_pre, matches_played := r.loser_matches_played,
        lastDate := r.matchDate })

/-- Every competitor appearance in the history, in history order, the
winner side of a row before its loser side. -/
def appearanceList {α : Type} (h : List (HistoryRow α)) : List (ℤ × FinalStats α) :=
  h.flatMap (fun r => [sideStats r true, sideStats r false])

/-- The entry with the maximum date; on equal dates the later occurrence
wins. -/
def lastMaxBy {α : Type} : List (FinalStats α) → Option (FinalStats α)
  | [] => none
  | a :: l =>
    match lastMaxBy l with
    | none => some a
    | some b => if b.lastDate < a.lastDate then some a else some b

/-- Modelled from the spec: `get_final_player_stats` is imported by
`src/app.py` from `utils/glickoHelpers.py` (line 11) and applied to the
ratings history (lines 161-162), but its definition is absent from the
sources.  Per §4.4 it collapses the Rating History into one row per
competitor appearing in it — the row with the maximum match date, ties
broken by the last occurrence in history order — retaining that
competitor's most recent (rating, deviation, volatility, matches_played).
The subsequent left-joins of win-rate metrics and identity metadata are
separate merges in `app.py` and are outside this reducer. -/
def get_final_player_stats {α : Type} (h : List (HistoryRow α)) : List (ℤ × FinalStats α) :=
  (((appearanceList h).map Prod.fst).dedup).filterMap
    (fun p =>
      (lastMaxBy (((appearanceList h).filter (fun a => decide (a.1 = p))).map Prod.snd)).map
        (fun s => (p, s)))

/-- C1.  The per-match step of the replayer does not feed the loser's
update with the winner's pre-match state: after the winner object is
mutated in place (line 141), the loser's `update_player` call (line 144)
reads `winner_obj.rating` and `winner_obj.rd` from the already-updated
object, so the loser's new state is `upd` applied to the components of the
winner's post-match state `upd wE.glicko lE.glicko.rating lE.glicko.rd 1`,
not to the winner's pre-match components `wE.glicko.rating, wE.glicko.rd`
that the claim requires.  Whenever the update changes the winner's rating
or deviation (as the real Glicko-2 update does after a decisive result),
the two disagree. -/
theorem loser_update_uses_winner_post {α : Type} [LinearOrderedField α]
    (E : α → α → α) (upd : UpdateFn α) (cache : Cache α) (m : MatchRow)
    (wid lid : ℤ) (wE lE : CacheEntry α)
    (hw : m.winnerId = some wid) (hl : m.loserId = some lid)
    (hcw : cache wid = some wE) (hcl : cache lid = some lE)
    (hne : wid ≠ lid) (hout : m.outcome ≠ some "tie") :
    (processMatch E upd cache m).1 lid =
      some { glicko := upd lE.glicko
               (upd wE.glicko lE.glicko.rating lE.glicko.rd 1).rating
               (upd wE.glicko lE.glicko.rating lE.glicko.rd 1).rd 0,
             matchCount := lE.matchCount + 1 } := by
  simp only [processMatch, hw, hl, hcw, hcl]
  simp only [cacheGet, cacheSet, cacheBump, if_neg hne, if_neg (Ne.symm hne), if_pos rfl,
    hcl, Option.getD_some, Option.map_some]
  simp [hout]

/-- Closed witness for `loser_update_uses_winner_post` at a concrete
two-player cache with a concrete update function. -/
theorem loser_update_uses_winner_post_witness :
    (processMatch subE halfRdUpd (mkCache ℚ [1, 2]) exM).1 2 =
      some { glicko := halfRdUpd (defaultPlayer ℚ)
               (halfRdUpd (defaultPlayer ℚ) (defaultPlayer ℚ).rating (defaultPlayer ℚ).rd 1).rating
               (halfRdUpd (defaultPlayer ℚ) (defaultPlayer ℚ).rating (defaultPlayer ℚ).rd 1).rd 0,
             matchCount := 0 + 1 } :=
  loser_update_uses_winner_post subE halfRdUpd (mkCache ℚ [1, 2]) exM 1 2
    { glicko := defaultPlayer ℚ, matchCount := 0 }
    { glicko := defaultPlayer ℚ, matchCount := 0 }
    rfl rfl rfl rfl (by decide) (by decide)

/-- Helper: the cache component of a successful per-match step with
distinct participant ids.  The winner's stored state is one update of the
winner's pre-state against the loser's pre-components; the loser's stored
state is one update of the loser's pre-state against the components of the
winner's post-state; both counters are bumped once. -/
theorem processMatch_fst_eval {α : Type} [LinearOrderedField α]
    (E : α → α → α) (upd : UpdateFn α) (cache : Cache α) (m : MatchRow)
    (wid lid : ℤ) (wE lE : CacheEntry α)
    (hw : m.winnerId = some wid) (hl : m.loserId = some lid)
    (hcw : cache wid = some wE) (hcl : cache lid = some lE)
    (hne : wid ≠ lid) (j : ℤ) :
    (processMatch E upd cache m).1 j =
      (if j = lid then
        some { glicko := upd lE.glicko
                 (upd wE.glicko lE.glicko.rating lE.glicko.rd
                   (if m.outcome = some "tie" then 1 / 2 else 1)).rating
                 (upd wE.glicko lE.glicko.rating lE.glicko.rd
                   (if m.outcome = some "tie" then 1 / 2 else 1)).rd
                 (if m.outcome = some "tie" then 1 / 2 else 0),
               matchCount := lE.matchCount + 1 }
      else if j = wid then
        some { glicko := upd wE.glicko lE.glicko.rating lE.glicko.rd
                 (if m.outcome = some "tie" then 1 / 2 else 1),
               matchCount := wE.matchCount + 1 }
      else cache j) := by
  have hlw : lid ≠ wid := Ne.symm hne
  simp only [processMatch, hw, hl, hcw, hcl]
  simp only [cacheGet, cacheSet, cacheBump, if_neg hlw, if_neg hne, if_pos rfl, hcl, hcw,
    Option.getD_some, Option.map_some]
  by_cases h1 : j = lid
  · simp [h1, if_neg hlw, if_neg hne, hcl]
  · by_cases h2 : j = wid
    · simp [h1, h2, if_neg hlw, if_neg hne, hcl, hcw]
    · simp [h1, h2]

/-- Helper: the emitted row of a successful per-match step with distinct
participant ids. -/
theorem processMatch_snd_eval {α : Type} [LinearOrderedField α]
    (E : α → α → α) (upd : UpdateFn α) (cache : Cache α) (m : MatchRow)
    (wid lid : ℤ) (wE lE : CacheEntry α)
    (hw : m.winnerId = some wid) (hl : m.loserId = some lid)
    (hcw : cache wid = some wE) (hcl : cache lid = some lE)
    (hne : wid ≠ lid) :
    (processMatch E upd cache m).2 =
      (let sw : α := if m.outcome = some "tie" then 1 / 2 else 1
      let sl : α := if m.outcome = some "tie" then 1 / 2 else 0
      let w1 := upd wE.glicko lE.glicko.rating lE.glicko.rd sw
      let l1 := upd lE.glicko w1.rating w1.rd sl
      some { eventId := m.eventId
             documentCode := m.documentCode
             matchDate := m.matchDate
             winnerId := wid
             loserId := lid
             outcome := m.outcome
             winner_rating_pre := wE.glicko.rating
             winner_rd_pre := wE.glicko.rd
             winner_vol_pre := wE.glicko.vol
             loser_rating_pre := lE.glicko.rating
             loser_rd_pre := lE.glicko.rd
             loser_vol_pre := lE.glicko.vol
             winner_rating_post := w1.rating
             loser_rating_post := l1.rating
             winner_rd_post := w1.rd
             loser_rd_post := l1.rd
             winner_rating_delta := w1.rating - wE.glicko.rating
             loser_rating_delta := l1.rating - lE.glicko.rating
             rating_difference_pre := wE.glicko.rating - lE.glicko.rating
             expected_outcome := E wE.glicko.rating lE.glicko.rating
             winner_matches_played := wE.matchCount + 1
             loser_matches_played := lE.matchCount + 1 }) := by
  have hlw : lid ≠ wid := Ne.symm hne
  simp only [processMatch, hw, hl, hcw, hcl]
  simp only [cacheGet, cacheSet, cacheBump, if_neg hlw, if_pos rfl, Option.getD_some,
    Option.map_some]
  simp [hcl, hcw, if_neg hne, if_neg hlw]

/-- C2.  Replaying a single `'tie'` match between two competitors who both
hold the default initial state does not produce identical post-match
states.  Writing `u` for the result of one tie update of a default player
against the default opponent input, the winner object ends at `u`, but the
loser's update is fed the winner's already-updated components, so the loser
ends at `upd default u.rating u.rd (1/2)`.  The hypothesis `hne` states
that this second-stage update differs from `u`, which holds for the real
Glicko-2 update (a tie against an opponent whose deviation has already
shrunk yields a strictly smaller new deviation than a tie against the
default deviation 350). -/
theorem tie_defaults_asymmetric {α : Type} [LinearOrderedField α] [FloorRing α]
    (E : α → α → α) (upd : UpdateFn α)
    (hne : upd (defaultPlayer α)
        (upd (defaultPlayer α) (defaultPlayer α).rating (defaultPlayer α).rd (1 / 2)).rating
        (upd (defaultPlayer α) (defaultPlayer α).rating (defaultPlayer α).rd (1 / 2)).rd (1 / 2)
        ≠ upd (defaultPlayer α) (defaultPlayer α).rating (defaultPlayer α).rd (1 / 2)) :
    (calculate_glicko2_ratings E upd npSortByDate [1, 2] [tieM]).2 1 ≠
      (calculate_glicko2_ratings E upd npSortByDate [1, 2] [tieM]).2 2 := by
  have hs : matchesToRate npSortByDate [tieM] = [tieM] := by decide
  have hw : tieM.winnerId = some 1 := rfl
  have hl : tieM.loserId = some 2 := rfl
  have hcw : mkCache α [1, 2] 1 = some { glicko := defaultPlayer α, matchCount := 0 } := by
    simp [mkCache]
  have hcl : mkCache α [1, 2] 2 = some { glicko := defaultPlayer α, matchCount := 0 } := by
    simp [mkCache]
  have hne12 : (1 : ℤ) ≠ 2 := by decide
  unfold calculate_glicko2_ratings
  rw [hs]
  simp only [replaySteps]
  rw [processMatch_fst_eval E upd _ tieM 1 2 _ _ hw hl hcw hcl hne12 1,
    processMatch_fst_eval E upd _ tieM 1 2 _ _ hw hl hcw hcl hne12 2]
  have hto : tieM.outcome = some "tie" := rfl
  simp only [hto, if_pos rfl, if_neg hne12, if_neg (Ne.symm hne12)]
  simp only [reduceIte]
  intro hcontra
  simp only [Option.some.injEq, CacheEntry.mk.injEq] at hcontra
  exact hne hcontra.1.symm

/-- Closed witness for `tie_defaults_asymmetric` with a concrete update
function whose result depends on the opponent's deviation argument. -/
theorem tie_defaults_asymmetric_witness :
    (calculate_glicko2_ratings subE halfRdUpd npSortByDate [1, 2] [tieM]).2 1 ≠
      (calculate_glicko2_ratings subE halfRdUpd npSortByDate [1, 2] [tieM]).2 2 :=
  tie_defaults_asymmetric subE halfRdUpd
    (by norm_num [halfRdUpd, defaultPlayer, PState.mk.injEq])

/-- C9.  For every successfully rated match (both ids present and both
looked up in the cache), the `expected_outcome` recorded in the emitted
history row equals `1 / (1 + 10 ^ ((loser_pre − winner_pre) / 400))`
applied to the two competitors' pre-match cache ratings, which are also the
`winner_rating_pre` / `loser_rating_pre` snapshots of the same row.  This
is the value stored at line 137, computed at lines 108-112 before either
update runs; the final output normalization (claim C10) additionally rounds
it to two decimals. -/
theorem expected_outcome_is_logistic_formula (upd : UpdateFn ℝ) (cache : Cache ℝ)
    (m : MatchRow) (wid lid : ℤ) (wE lE : CacheEntry ℝ)
    (hw : m.winnerId = some wid) (hl : m.loserId = some lid)
    (hcw : cache wid = some wE) (hcl : cache lid = some lE) (hne : wid ≠ lid) :
    ∃ row : HistoryRow ℝ,
      (processMatch glickoExpected upd cache m).2 = some row ∧
      row.winner_rating_pre = wE.glicko.rating ∧
      row.loser_rating_pre = lE.glicko.rating ∧
      row.expected_outcome =
        1 / (1 + (10 : ℝ) ^ ((lE.glicko.rating - wE.glicko.rating) / 400)) := by
  rw [processMatch_snd_eval glickoExpected upd cache m wid lid wE lE hw hl hcw hcl hne]
  exact ⟨_, rfl, rfl, rfl, rfl⟩

/-- Closed witness for `expected_outcome_is_logistic_formula` on a concrete
match between two default-state competitors. -/
theorem expected_outcome_is_logistic_formula_witness :
    ∃ row : HistoryRow ℝ,
      (processMatch glickoExpected (fun p _ _ _ => p) (mkCache ℝ [1, 2]) exM).2 = some row ∧
      row.winner_rating_pre = (defaultPlayer ℝ).rating ∧
      row.loser_rating_pre = (defaultPlayer ℝ).rating ∧
      row.expected_outcome =
        1 / (1 + (10 : ℝ) ^
          (((defaultPlayer ℝ).rating - (defaultPlayer ℝ).rating) / 400)) :=
  expected_outcome_is_logistic_formula (fun p _ _ _ => p) (mkCache ℝ [1, 2]) exM 1 2
    { glicko := defaultPlayer ℝ, matchCount := 0 }
    { glicko := defaultPlayer ℝ, matchCount := 0 }
    rfl rfl rfl rfl (by decide)

/-- Helper: a step that emitted no row left the cache untouched. -/
theorem processMatch_none_fst {α : Type} [LinearOrderedField α]
    (E : α → α → α) (upd : UpdateFn α) (c : Cache α) (m : MatchRow)
    (h : (processMatch E upd c m).2 = none) :
    (processMatch E upd c m).1 = c := by
  rcases hwi : m.winnerId with _ | wid
  · simp [processMatch, hwi]
  · rcases hli : m.loserId with _ | lid
    · simp [processMatch, hwi, hli]
    · rcases hcw : c wid with _ | wE
      · simp [processMatch, hwi, hli, hcw]
      · rcases hcl : c lid with _ | lE
        · simp [processMatch, hwi, hli, hcw, hcl]
        · exfalso
          rw [processMatch] at h
          simp [hwi, hli, hcw, hcl] at h

/-- C4.  Per-match atomicity: whenever the per-match step yields no row
(the per-row `try` failed before any state was touched, e.g. a missing
cache key), both competitors' rating states and counters — indeed the
whole cache — are exactly as before, and the replay continues with the
remaining matches from that unchanged cache, the failed match contributing
only the skip marker that the final `dropna` removes. -/
theorem skipped_match_atomic {α : Type} [LinearOrderedField α]
    (E : α → α → α) (upd : UpdateFn α) (c : Cache α) (m : MatchRow) (ms : List MatchRow)
    (h : (processMatch E upd c m).2 = none) :
    (processMatch E upd c m).1 = c ∧
    replaySteps E upd c (m :: ms) =
      ((replaySteps E upd c ms).1, none :: (replaySteps E upd c ms).2) := by
  have hfst := processMatch_none_fst E upd c m h
  refine ⟨hfst, ?_⟩
  simp only [replaySteps, hfst, h]

/-- Closed witness for `skipped_match_atomic`: a match between unknown
competitors leaves a concrete cache untouched. -/
theorem skipped_match_atomic_witness :
    (processMatch subE constUpd (mkCache ℚ [1, 2]) exBadM).1 = mkCache ℚ [1, 2] ∧
    replaySteps subE constUpd (mkCache ℚ [1, 2]) (exBadM :: [exM]) =
      ((replaySteps subE constUpd (mkCache ℚ [1, 2]) [exM]).1,
        none :: (replaySteps subE constUpd (mkCache ℚ [1, 2]) [exM]).2) :=
  skipped_match_atomic subE constUpd (mkCache ℚ [1, 2]) exBadM [exM] rfl

/-- Helper: facts read off every emitted row — its date is the match's
date, its ids are the match's ids, and both ids were present in the cache
the match was processed from. -/
theorem processMatch_row_fields {α : Type} [LinearOrderedField α]
    (E : α → α → α) (upd : UpdateFn α) (c : Cache α) (m : MatchRow) (row : HistoryRow α)
    (h : (processMatch E upd c m).2 = some row) :
    row.matchDate = m.matchDate ∧ m.winnerId = some row.winnerId ∧
      m.loserId = some row.loserId ∧ (c row.winnerId).isSome ∧ (c row.loserId).isSome := by
  rcases hwi : m.winnerId with _ | wid
  · rw [processMatch] at h
    simp [hwi] at h
  rcases hli : m.loserId with _ | lid
  · rw [processMatch] at h
    simp [hwi, hli] at h
  rcases hcw : c wid with _ | wE
  · rw [processMatch] at h
    simp [hwi, hli, hcw] at h
  rcases hcl : c lid with _ | lE
  · rw [processMatch] at h
    simp [hwi, hli, hcw, hcl] at h
  rw [processMatch] at h
  simp only [hwi, hli, hcw, hcl, Option.some.injEq] at h
  subst h
  simp [hwi, hli, hcw, hcl]

/-- Helper: the dates of the rows actually emitted by a replay form a
sublist of the dates of the processed match list (skipped matches drop
out, nothing is reordered). -/
theorem replay_dates_sublist {α : Type} [LinearOrderedField α]
    (E : α → α → α) (upd : UpdateFn α) (c : Cache α) (ms : List MatchRow) :
    (((replaySteps E upd c ms).2.filterMap id).map HistoryRow.matchDate).Sublist
      (ms.map MatchRow.matchDate) := by
  induction ms generalizing c with
  | nil => simp [replaySteps]
  | cons m ms ih =>
    simp only [replaySteps, List.map_cons]
    cases hr : (processMatch E upd c m).2 with
    | none =>
      exact (ih _).cons _
    | some row =>
      have hd := (processMatch_row_fields E upd c m row hr).1
      rw [← hd]
      exact (ih _).cons₂ _

/-- C3 (amended).  The replayer processes matches in ascending
match-date order: whenever the sorted match list handed to the filter
stage has ascending dates (pandas's contract for
`sort_values('matchDate')`), the emitted history rows' dates ascend as
well.  The relative order of equal-date matches is whatever the
underlying argsort produced — not necessarily the input order (see the
counterexample `equal_dates_not_input_order`). -/
theorem replay_dates_ascending {α : Type} [LinearOrderedField α] [FloorRing α]
    (E : α → α → α) (upd : UpdateFn α) (sortRows : List MatchRow → List MatchRow)
    (players : List ℤ) (matchList : List MatchRow)
    (hs : ((sortRows matchList).map MatchRow.matchDate).Sorted (· ≤ ·)) :
    (((calculate_glicko2_ratings E upd sortRows players matchList).1).map
      HistoryRow.matchDate).Sorted (· ≤ ·) := by
  have hnorm : ∀ l : List (HistoryRow α),
      (l.map normalizeRow).map HistoryRow.matchDate = l.map HistoryRow.matchDate := by
    intro l
    rw [List.map_map]
    rfl
  unfold calculate_glicko2_ratings
  rw [hnorm]
  have h1 := replay_dates_sublist E upd (mkCache α players) (matchesToRate sortRows matchList)
  have h2 : ((matchesToRate sortRows matchList).map MatchRow.matchDate).Sublist
      ((sortRows matchList).map MatchRow.matchDate) := by
    unfold matchesToRate
    exact ((List.filter_sublist _).trans (List.filter_sublist _)).map _
  exact hs.sublist (h1.trans h2)

/-- Closed witness for `replay_dates_ascending` on a concrete one-match
input sorted by the actual numpy-backed sort. -/
theorem replay_dates_ascending_witness :
    (((calculate_glicko2_ratings subE constUpd npSortByDate [1, 2] [exM]).1).map
      HistoryRow.matchDate).Sorted (· ≤ ·) :=
  replay_dates_ascending subE constUpd npSortByDate [1, 2] [exM] (by decide)

set_option maxRecDepth 8000 in
/-- C3 (counterexample).  Replaying seventeen matches that share a single
match date does not process them in input order: the pivot swaps of the
unstable default quicksort reorder the equal-date block, so the emitted
history lists the document codes in a permuted order. -/
theorem equal_dates_not_input_order :
    ((calculate_glicko2_ratings subE constUpd npSortByDate [1, 2] eqDateMs).1).map
        HistoryRow.documentCode =
      ["D0", "D14", "D13", "D12", "D11", "D10", "D9", "D15", "D8", "D6", "D5", "D4",
        "D3", "D2", "D1", "D7", "D16"] ∧
    ((calculate_glicko2_ratings subE constUpd npSortByDate [1, 2] eqDateMs).1).map
        HistoryRow.documentCode ≠ eqDateMs.map MatchRow.documentCode := by
  constructor
  · decide
  · decide

/-- C5 (amended).  A match enters rating computation iff its `dnf` cell
compares equal to `False` under Python equality — which the boolean
`False` does, but also the numbers `0` and `0.0` — or is literally the
string `'False'`, and both participant ids are non-null; and the rating
pass runs on exactly the so-filtered sorted match list, so every excluded
match mutates no state and emits no row. -/
theorem inclusion_predicate_characterization :
    (∀ m : MatchRow,
      includedMatch m = true ↔
        ((m.dnf = .pybool false ∨ m.dnf = .pyint 0 ∨ m.dnf = .pyfloat 0 ∨
            m.dnf = .pystr "False") ∧ m.winnerId ≠ none ∧ m.loserId ≠ none)) ∧
    (∀ (sortRows : List MatchRow → List MatchRow) (matchList : List MatchRow),
      matchesToRate sortRows matchList = (sortRows matchList).filter includedMatch) := by
  constructor
  · intro m
    cases hdnf : m.dnf <;>
      simp [includedMatch, pyEqFalse, pyEqStrFalse, hdnf,
        Option.isSome_iff_ne_none, and_assoc]
  · intro sortRows matchList
    unfold matchesToRate includedMatch
    rw [List.filter_filter]
    exact List.filter_congr (fun m _ => by rw [Bool.and_comm])

/-- C5 (counterexample).  A match whose `dnf` value is the integer 0 —
neither the boolean `False` nor the string `'False'` — is nevertheless
rated and produces an output row, because the pandas mask `dnf == False`
is Python equality and `0 == False` holds. -/
theorem dnf_zero_match_is_rated :
    exDnfZeroM.dnf ≠ .pybool false ∧ exDnfZeroM.dnf ≠ .pystr "False" ∧
    ((calculate_glicko2_ratings subE constUpd npSortByDate [1, 2] [exDnfZeroM]).1).length
      = 1 := by
  refine ⟨by decide, by decide, by decide⟩

/-- Helper: a per-match step never changes which ids are present in the
cache (it only overwrites and bumps existing entries). -/
theorem processMatch_preserves_presence {α : Type} [LinearOrderedField α]
    (E : α → α → α) (upd : UpdateFn α) (c : Cache α) (m : MatchRow) (i : ℤ) :
    ((processMatch E upd c m).1 i).isSome = (c i).isSome := by
  rcases hwi : m.winnerId with _ | wid
  · simp [processMatch, hwi]
  rcases hli : m.loserId with _ | lid
  · simp [processMatch, hwi, hli]
  rcases hcw : c wid with _ | wE
  · simp [processMatch, hwi, hli, hcw]
  rcases hcl : c lid with _ | lE
  · simp [processMatch, hwi, hli, hcw, hcl]
  simp only [processMatch, hwi, hli, hcw, hcl, cacheSet, cacheGet, cacheBump]
  by_cases h1 : i = lid
  · subst h1
    by_cases h2 : i = wid <;> simp [h2, hcl, hcw]
  · by_cases h2 : i = wid
    · subst h2
      simp [h1, Ne.symm h1, hcl, hcw]
    · simp [h1, h2]

/-- Helper: a match one of whose ids is missing from the cache is skipped
outright. -/
theorem processMatch_absent_skip {α : Type} [LinearOrderedField α]
    (E : α → α → α) (upd : UpdateFn α) (c : Cache α) (m : MatchRow)
    (h : ∀ wid lid, m.winnerId = some wid → m.loserId = some lid →
      c wid = none ∨ c lid = none) :
    processMatch E upd c m = (c, none) := by
  rcases hwi : m.winnerId with _ | wid
  · simp [processMatch, hwi]
  rcases hli : m.loserId with _ | lid
  · simp [processMatch, hwi, hli]
  rcases hcw : c wid with _ | wE
  · simp [processMatch, hwi, hli, hcw]
  rcases hcl : c lid with _ | lE
  · simp [processMatch, hwi, hli, hcw, hcl]
  rcases h wid lid hwi hli with hc | hc
  · rw [hcw] at hc
    simp at hc
  · rw [hcl] at hc
    simp at hc

/-- C6.  Matches referencing a competitor id outside the roster are
harmless: the batch replay on any match list returns normally and equals —
both in final cache state and in emitted rows — the replay of the sublist
of matches whose two ids both resolve in the roster, so each unknown-id
match yields zero rows while every other match is still processed. -/
theorem unknown_competitor_isolated {α : Type} [LinearOrderedField α]
    (E : α → α → α) (upd : UpdateFn α) (players : List ℤ) (ms : List MatchRow) :
    (replaySteps E upd (mkCache α players) ms).1 =
        (replaySteps E upd (mkCache α players) (ms.filter (rosterHas players))).1 ∧
      (replaySteps E upd (mkCache α players) ms).2.filterMap id =
        (replaySteps E upd (mkCache α players)
          (ms.filter (rosterHas players))).2.filterMap id := by
  have key : ∀ (ms : List MatchRow) (c : Cache α),
      (∀ i, (c i).isSome = decide (i ∈ players)) →
      (replaySteps E upd c ms).1 = (replaySteps E upd c (ms.filter (rosterHas players))).1 ∧
      (replaySteps E upd c ms).2.filterMap id =
        (replaySteps E upd c (ms.filter (rosterHas players))).2.filterMap id := by
    intro ms
    induction ms with
    | nil => intro c _; exact ⟨rfl, rfl⟩
    | cons m ms ih =>
      intro c hc
      by_cases hm : rosterHas players m = true
      · have hfilter : (m :: ms).filter (rosterHas players) =
            m :: ms.filter (rosterHas players) := by
          simp [List.filter_cons, hm]
        rw [hfilter]
        have hc' : ∀ i, (((processMatch E upd c m).1) i).isSome = decide (i ∈ players) :=
          fun i => (processMatch_preserves_presence E upd c m i).trans (hc i)
        have hih := ih ((processMatch E upd c m).1) hc'
        constructor
        · simp only [replaySteps]
          exact hih.1
        · simp only [replaySteps]
          cases hr : (processMatch E upd c m).2 <;> simp [hih.2]
      · have hfilter : (m :: ms).filter (rosterHas players) =
            ms.filter (rosterHas players) := by
          simp [List.filter_cons, hm]
        rw [hfilter]
        have hskip : processMatch E upd c m = (c, none) := by
          apply processMatch_absent_skip
          intro wid lid hwi hli
          rw [rosterHas, hwi, hli] at hm
          simp only [Bool.and_eq_true, decide_eq_true_eq, not_and_or] at hm
          rcases hm with hm | hm
          · left
            have h0 := hc wid
            cases hcn : c wid with
            | none => rfl
            | some e =>
              rw [hcn] at h0
              simp only [Option.isSome_some] at h0
              exact absurd (of_decide_eq_true h0.symm) hm
          · right
            have h0 := hc lid
            cases hcn : c lid with
            | none => rfl
            | some e =>
              rw [hcn] at h0
              simp only [Option.isSome_some] at h0
              exact absurd (of_decide_eq_true h0.symm) hm
        have hih := ih c hc
        constructor
        · simp only [replaySteps, hskip]
          exact hih.1
        · simp only [replaySteps, hskip]
          simpa using hih.2
  exact key ms (mkCache α players)
    (by intro i; by_cases h : i ∈ players <;> simp [mkCache, h])

/-- Helper: one replay step advances the stored match counter of every
competitor by exactly that competitor's number of appearances on the
emitted row (two sequential `+= 1` on the same dict entry when the match
lists one id twice), and leaves absent ids absent. -/
theorem processMatch_count_step {α : Type} [LinearOrderedField α]
    (E : α → α → α) (upd : UpdateFn α) (c : Cache α) (m : MatchRow) (p : ℤ) :
    ((processMatch E upd c m).1 p).map CacheEntry.matchCount =
      (c p).map (fun e => e.matchCount + appCountO p (processMatch E upd c m).2) := by
  rcases hwi : m.winnerId with _ | wid
  · simp [processMatch, hwi, appCountO]
  rcases hli : m.loserId with _ | lid
  · simp [processMatch, hwi, hli, appCountO]
  rcases hcw : c wid with _ | wE
  · simp [processMatch, hwi, hli, hcw, appCountO]
  rcases hcl : c lid with _ | lE
  · simp [processMatch, hwi, hli, hcw, hcl, appCountO]
  simp only [processMatch, hwi, hli, hcw, hcl, cacheSet, cacheGet, cacheBump]
  by_cases hwl : wid = lid
  · subst hwl
    by_cases hp : p = wid
    · subst hp
      simp [hcw, hcl, appCountO, appCount]
    · simp [hp, Ne.symm hp, appCountO, appCount]
  · by_cases hp1 : p = lid
    · subst hp1
      simp [hwl, Ne.symm hwl, hcl, hcw, appCountO, appCount]
    · by_cases hp2 : p = wid
      · subst hp2
        simp [hwl, Ne.symm hwl, hp1, Ne.symm hp1, hcl, hcw, appCountO, appCount]
      · simp [hp1, hp2, appCountO, appCount, Ne.symm hp1, Ne.symm hp2]

/-- Helper: the counter snapshots on an emitted row are the stored
counters immediately after that match, i.e. the pre-match counters plus
the participant's appearances on the row itself. -/
theorem processMatch_row_counts {α : Type} [LinearOrderedField α]
    (E : α → α → α) (upd : UpdateFn α) (c : Cache α) (m : MatchRow) (row : HistoryRow α)
    (h : (processMatch E upd c m).2 = some row) :
    row.winner_matches_played =
        ((c row.winnerId).map CacheEntry.matchCount).getD 0 + appCount row.winnerId row ∧
      row.loser_matches_played =
        ((c row.loserId).map CacheEntry.matchCount).getD 0 + appCount row.loserId row := by
  rcases hwi : m.winnerId with _ | wid
  · rw [processMatch] at h
    simp [hwi] at h
  rcases hli : m.loserId with _ | lid
  · rw [processMatch] at h
    simp [hwi, hli] at h
  rcases hcw : c wid with _ | wE
  · rw [processMatch] at h
    simp [hwi, hli, hcw] at h
  rcases hcl : c lid with _ | lE
  · rw [processMatch] at h
    simp [hwi, hli, hcw, hcl] at h
  rw [processMatch] at h
  simp only [hwi, hli, hcw, hcl, Option.some.injEq] at h
  subst h
  by_cases hwl : wid = lid
  · subst hwl
    rw [hcw] at hcl
    simp only [Option.some.injEq] at hcl
    subst hcl
    simp [cacheGet, cacheSet, cacheBump, hcw, appCount]
  · simp [cacheGet, cacheSet, cacheBump, hcw, hcl, hwl, Ne.symm hwl, appCount]

/-- Helper: the ids on every row a replay emits were present in the cache
the replay started from. -/
theorem replay_rows_ids_present {α : Type} [LinearOrderedField α]
    (E : α → α → α) (upd : UpdateFn α) :
    ∀ (ms : List MatchRow) (c : Cache α) (row : HistoryRow α),
      row ∈ (replaySteps E upd c ms).2.filterMap id →
      (c row.winnerId).isSome ∧ (c row.loserId).isSome := by
  intro ms
  induction ms with
  | nil => intro c row hrow; simp [replaySteps] at hrow
  | cons m ms ih =>
    intro c row hrow
    simp only [replaySteps] at hrow
    cases hr : (processMatch E upd c m).2 with
    | none =>
      rw [hr] at hrow
      have hrow' : row ∈ (replaySteps E upd (processMatch E upd c m).1 ms).2.filterMap id := hrow
      have h2 := ih _ _ hrow'
      rw [processMatch_none_fst E upd c m hr] at h2
      exact h2
    | some r0 =>
      rw [hr] at hrow
      rcases List.mem_cons.mp hrow with hrow | hrow
      · subst hrow
        have hf := processMatch_row_fields E upd c m row hr
        exact ⟨hf.2.2.2.1, hf.2.2.2.2⟩
      · have h2 := ih _ _ hrow
        constructor
        · rw [← processMatch_preserves_presence E upd c m row.winnerId]
          exact h2.1
        · rw [← processMatch_preserves_presence E upd c m row.loserId]
          exact h2.2

/-- Helper: after a whole replay, every stored counter has advanced by the
competitor's total number of appearances on the emitted rows. -/
theorem replay_count {α : Type} [LinearOrderedField α]
    (E : α → α → α) (upd : UpdateFn α) :
    ∀ (ms : List MatchRow) (c : Cache α) (p : ℤ) (e : CacheEntry α), c p = some e →
      ∃ eF, (replaySteps E upd c ms).1 p = some eF ∧
        eF.matchCount =
          e.matchCount + appsIn p ((replaySteps E upd c ms).2.filterMap id) := by
  intro ms
  induction ms with
  | nil =>
    intro c p e hce
    exact ⟨e, hce, by simp [replaySteps, appsIn]⟩
  | cons m ms ih =>
    intro c p e hce
    have hstep := processMatch_count_step E upd c m p
    rw [hce] at hstep
    have hstep2 : Option.map CacheEntry.matchCount ((processMatch E upd c m).1 p) =
        some (e.matchCount + appCountO p (processMatch E upd c m).2) := hstep
    rcases Option.map_eq_some'.mp hstep2 with ⟨e1, he1, hcnt1⟩
    rcases ih ((processMatch E upd c m).1) p e1 he1 with ⟨eF, heF, hcntF⟩
    refine ⟨eF, ?_, ?_⟩
    · simp only [replaySteps]
      exact heF
    · simp only [replaySteps]
      rw [hcntF, hcnt1]
      cases hr : (processMatch E upd c m).2 with
      | none => simp [hr, appCountO, appsIn]
      | some r0 => simp [hr, appCountO, appsIn, add_assoc]

/-- Helper: appearances distribute over a cons of history rows. -/
theorem appsIn_cons {α : Type} (p : ℤ) (r : HistoryRow α) (l : List (HistoryRow α)) :
    appsIn p (r :: l) = appCount p r + appsIn p l := by
  simp [appsIn]

/-- Helper: rows of a replay whose first step emits nothing. -/
theorem replay_rows_cons_none {α : Type} [LinearOrderedField α]
    (E : α → α → α) (upd : UpdateFn α) (c : Cache α) (m : MatchRow) (ms : List MatchRow)
    (hr : (processMatch E upd c m).2 = none) :
    (replaySteps E upd c (m :: ms)).2.filterMap id =
      (replaySteps E upd (processMatch E upd c m).1 ms).2.filterMap id := by
  simp only [replaySteps]
  rw [hr]
  rfl

/-- Helper: rows of a replay whose first step emits a row. -/
theorem replay_rows_cons_some {α : Type} [LinearOrderedField α]
    (E : α → α → α) (upd : UpdateFn α) (c : Cache α) (m : MatchRow) (ms : List MatchRow)
    (r0 : HistoryRow α) (hr : (processMatch E upd c m).2 = some r0) :
    (replaySteps E upd c (m :: ms)).2.filterMap id =
      r0 :: (replaySteps E upd (processMatch E upd c m).1 ms).2.filterMap id := by
  simp only [replaySteps]
  rw [hr]
  rfl

/-- Helper: every emitted row's counter snapshots equal the participant's
pre-replay stored counter plus their appearances in the emitted rows up to
and including that row (`pre ++ [r]` when the rows split as
`pre ++ r :: post`). -/
theorem replay_running_counts {α : Type} [LinearOrderedField α]
    (E : α → α → α) (upd : UpdateFn α) :
    ∀ (ms : List MatchRow) (c : Cache α) (pre : List (HistoryRow α)) (r : HistoryRow α)
      (post : List (HistoryRow α)),
      (replaySteps E upd c ms).2.filterMap id = pre ++ r :: post →
      (r.winner_matches_played =
          ((c r.winnerId).map CacheEntry.matchCount).getD 0 +
            appsIn r.winnerId (pre ++ [r])) ∧
      (r.loser_matches_played =
          ((c r.loserId).map CacheEntry.matchCount).getD 0 +
            appsIn r.loserId (pre ++ [r])) := by
  intro ms
  induction ms with
  | nil =>
    intro c pre r post h
    simp [replaySteps] at h
  | cons m ms ih =>
    intro c pre r post h
    cases hr : (processMatch E upd c m).2 with
    | none =>
      rw [replay_rows_cons_none E upd c m ms hr] at h
      have h0 := ih ((processMatch E upd c m).1) pre r post h
      rw [processMatch_none_fst E upd c m hr] at h0
      exact h0
    | some r0 =>
      rw [replay_rows_cons_some E upd c m ms r0 hr] at h
      cases pre with
      | nil =>
        simp only [List.nil_append, List.cons.injEq] at h
        rcases h with ⟨hr0, -⟩
        rw [hr0] at hr
        have hc := processMatch_row_counts E upd c m r hr
        simpa [appsIn] using hc
      | cons p0 pre' =>
        simp only [List.cons_append, List.cons.injEq] at h
        rcases h with ⟨hp0, htail⟩
        subst hp0
        have hmem : r ∈ (replaySteps E upd (processMatch E upd c m).1 ms).2.filterMap id := by
          rw [htail]
          exact List.mem_append_right pre' (List.mem_cons_self r post)
        have hpres := replay_rows_ids_present E upd ms ((processMatch E upd c m).1) r hmem
        have h0 := ih ((processMatch E upd c m).1) pre' r post htail
        have hshift : ∀ q : ℤ, ((processMatch E upd c m).1 q).isSome = true →
            (((processMatch E upd c m).1 q).map CacheEntry.matchCount).getD 0 =
              ((c q).map CacheEntry.matchCount).getD 0 + appCount q r0 := by
          intro q hq
          have hqc : (c q).isSome = true := by
            rw [← processMatch_preserves_presence E upd c m q]
            exact hq
          rcases Option.isSome_iff_exists.mp hqc with ⟨e, he⟩
          have hstep := processMatch_count_step E upd c m q
          rw [he, hr] at hstep
          rw [hstep, he]
          simp [appCountO]
        constructor
        · rw [h0.1, hshift r.winnerId hpres.1, List.cons_append, appsIn_cons, add_assoc]
        · rw [h0.2, hshift r.loserId hpres.2, List.cons_append, appsIn_cons, add_assoc]

/-- Helper: the output normalization changes no id and no counter, so
appearance counts are invariant under it. -/
theorem appsIn_map_normalizeRow {α : Type} [LinearOrderedField α] [FloorRing α]
    (p : ℤ) (l : List (HistoryRow α)) :
    appsIn p (l.map normalizeRow) = appsIn p l := by
  simp only [appsIn, List.map_map]
  rfl

/-- Normalization does not touch the winner id column. -/
theorem normalizeRow_winnerId {α : Type} [LinearOrderedField α] [FloorRing α]
    (r : HistoryRow α) : (normalizeRow r).winnerId = r.winnerId := rfl

/-- Normalization does not touch the loser id column. -/
theorem normalizeRow_loserId {α : Type} [LinearOrderedField α] [FloorRing α]
    (r : HistoryRow α) : (normalizeRow r).loserId = r.loserId := rfl

/-- Normalization does not touch the winner's counter column. -/
theorem normalizeRow_winner_matches_played {α : Type} [LinearOrderedField α] [FloorRing α]
    (r : HistoryRow α) :
    (normalizeRow r).winner_matches_played = r.winner_matches_played := rfl

/-- Normalization does not touch the loser's counter column. -/
theorem normalizeRow_loser_matches_played {α : Type} [LinearOrderedField α] [FloorRing α]
    (r : HistoryRow α) :
    (normalizeRow r).loser_matches_played = r.loser_matches_played := rfl

/-- C7 (amended).  Conservation of match counts: for every competitor in
the roster, the counter stored after a full replay equals that
competitor's total number of appearances (as winner plus as loser) on the
emitted history rows, and every emitted row snapshots each participant's
appearances over the rows up to and including that row.  When no match
lists one competitor on both sides, appearances coincide with the number
of non-skipped matches the competitor took part in; a degenerate
self-match counts twice (see `self_match_double_counts`). -/
theorem matches_played_conservation {α : Type} [LinearOrderedField α] [FloorRing α]
    (E : α → α → α) (upd : UpdateFn α) (sortRows : List MatchRow → List MatchRow)
    (players : List ℤ) (matchList : List MatchRow) (p : ℤ) (hp : p ∈ players) :
    ((calculate_glicko2_ratings E upd sortRows players matchList).2 p).map
        CacheEntry.matchCount =
      some (appsIn p (calculate_glicko2_ratings E upd sortRows players matchList).1) ∧
    ∀ (pre : List (HistoryRow α)) (r : HistoryRow α) (post : List (HistoryRow α)),
      (calculate_glicko2_ratings E upd sortRows players matchList).1 = pre ++ r :: post →
      r.winner_matches_played = appsIn r.winnerId (pre ++ [r]) ∧
      r.loser_matches_played = appsIn r.loserId (pre ++ [r]) := by
  have hc0 : mkCache α players p = some { glicko := defaultPlayer α, matchCount := 0 } := by
    simp [mkCache, hp]
  constructor
  · simp only [calculate_glicko2_ratings]
    rcases replay_count E upd (matchesToRate sortRows matchList) (mkCache α players) p
      _ hc0 with ⟨eF, heF, hcnt⟩
    rw [heF]
    simp [hcnt, appsIn_map_normalizeRow]
  · intro pre r post hsplit
    simp only [calculate_glicko2_ratings] at hsplit
    rcases List.map_eq_append_iff.mp hsplit with ⟨pre0, tail0, hraw, hpre0, htail0⟩
    rcases List.map_eq_cons_iff.mp htail0 with ⟨r0, post0, htail, hr0, _⟩
    rw [htail] at hraw
    have hrun := replay_running_counts E upd (matchesToRate sortRows matchList)
      (mkCache α players) pre0 r0 post0 hraw
    have hpres : ∀ q : ℤ, ((mkCache α players) q).isSome = true →
        (((mkCache α players) q).map CacheEntry.matchCount).getD 0 = 0 := by
      intro q hq
      by_cases hmem : q ∈ players <;> simp [mkCache, hmem]
    have hmemr : r0 ∈ (replaySteps E upd (mkCache α players)
        (matchesToRate sortRows matchList)).2.filterMap id := by
      rw [hraw]
      exact List.mem_append_right pre0 (List.mem_cons_self r0 post0)
    have hids := replay_rows_ids_present E upd (matchesToRate sortRows matchList)
      (mkCache α players) r0 hmemr
    constructor
    · have h1 := hrun.1
      rw [hpres r0.winnerId hids.1, Nat.zero_add] at h1
      calc r.winner_matches_played = r0.winner_matches_played := by
            rw [← hr0, normalizeRow_winner_matches_played]
        _ = appsIn r0.winnerId (pre0 ++ [r0]) := h1
        _ = appsIn r0.winnerId ((pre0 ++ [r0]).map normalizeRow) :=
            (appsIn_map_normalizeRow _ _).symm
        _ = appsIn r0.winnerId (pre ++ [r]) := by
            rw [List.map_append, hpre0]
            simp [hr0]
        _ = appsIn r.winnerId (pre ++ [r]) := by rw [← hr0, normalizeRow_winnerId]
    · have h2 := hrun.2
      rw [hpres r0.loserId hids.2, Nat.zero_add] at h2
      calc r.loser_matches_played = r0.loser_matches_played := by
            rw [← hr0, normalizeRow_loser_matches_played]
        _ = appsIn r0.loserId (pre0 ++ [r0]) := h2
        _ = appsIn r0.loserId ((pre0 ++ [r0]).map normalizeRow) :=
            (appsIn_map_normalizeRow _ _).symm
        _ = appsIn r0.loserId (pre ++ [r]) := by
            rw [List.map_append, hpre0]
            simp [hr0]
        _ = appsIn r.loserId (pre ++ [r]) := by rw [← hr0, normalizeRow_loserId]

/-- C7 (counterexample).  A match listing the same competitor id as winner
and loser is rated once, yet increments that competitor's counter twice
(both `+= 1` statements hit the same dict entry): afterwards
`matches_played` is 2 while the competitor appears as winner or loser in
exactly 1 non-skipped match. -/
theorem self_match_double_counts :
    ((calculate_glicko2_ratings subE constUpd npSortByDate [1] [selfM]).2 1).map
        CacheEntry.matchCount = some 2 ∧
    ((calculate_glicko2_ratings subE constUpd npSortByDate [1] [selfM]).1).countP
        (fun r => r.winnerId == 1 || r.loserId == 1) = 1 := by
  exact ⟨by decide, by decide⟩

/-- Closed witness for `matches_played_conservation` on a concrete
one-match replay. -/
theorem matches_played_conservation_witness :
    ((calculate_glicko2_ratings subE constUpd npSortByDate [1, 2] [exM]).2 1).map
        CacheEntry.matchCount =
      some (appsIn 1 (calculate_glicko2_ratings subE constUpd npSortByDate [1, 2] [exM]).1) ∧
    ∀ (pre : List (HistoryRow ℚ)) (r : HistoryRow ℚ) (post : List (HistoryRow ℚ)),
      (calculate_glicko2_ratings subE constUpd npSortByDate [1, 2] [exM]).1 =
        pre ++ r :: post →
      r.winner_matches_played = appsIn r.winnerId (pre ++ [r]) ∧
      r.loser_matches_played = appsIn r.loserId (pre ++ [r]) :=
  matches_played_conservation subE constUpd npSortByDate [1, 2] [exM] 1 (by decide)

/-- Helper: the result of `round2` is always a hundredth. -/
theorem round2_hundredth {α : Type} [LinearOrderedField α] [FloorRing α] (x : α) :
    hundredth (round2 x) :=
  ⟨roundHalfEven (100 * x), rfl⟩

/-- C10.  Output normalization: every row of the returned history has all
its fourteen float-typed columns rounded to two decimal places (each value
is an exact multiple of 1/100, the image of the end-of-pipeline
`.round(2)`); the id and counter columns are integers by construction, so
the final `.astype(int)` cast is the identity on them. -/
theorem output_rounded_two_decimals {α : Type} [LinearOrderedField α] [FloorRing α]
    (E : α → α → α) (upd : UpdateFn α) (sortRows : List MatchRow → List MatchRow)
    (players : List ℤ) (matchList : List MatchRow) (r : HistoryRow α)
    (hr : r ∈ (calculate_glicko2_ratings E upd sortRows players matchList).1) :
    rowRounded r := by
  simp only [calculate_glicko2_ratings] at hr
  rcases List.mem_map.mp hr with ⟨r0, -, hr0⟩
  subst hr0
  exact ⟨round2_hundredth _, round2_hundredth _, round2_hundredth _, round2_hundredth _,
    round2_hundredth _, round2_hundredth _, round2_hundredth _, round2_hundredth _,
    round2_hundredth _, round2_hundredth _, round2_hundredth _, round2_hundredth _,
    round2_hundredth _, round2_hundredth _⟩

/-- Closed witness for `output_rounded_two_decimals` on the first row of a
concrete one-match replay. -/
theorem output_rounded_two_decimals_witness :
    rowRounded ((calculate_glicko2_ratings subE constUpd npSortByDate [1, 2] [exM]).1.head!) :=
  output_rounded_two_decimals subE constUpd npSortByDate [1, 2] [exM] _
    (List.head!_mem_self (List.length_pos.mp (by decide)))

/-- Helper: `lastMaxBy` returns nothing only on the empty list. -/
theorem lastMaxBy_eq_none {α : Type} (l : List (FinalStats α))
    (h : lastMaxBy (α := α) l = none) : l = [] := by
  cases l with
  | nil => rfl
  | cons a l =>
    exfalso
    rw [lastMaxBy] at h
    split at h
    · exact Option.some_ne_none a h
    · split at h <;> exact Option.some_ne_none _ h

/-- Helper: the entry selected by `lastMaxBy` splits the list into earlier
entries with dates at most its own and later entries with strictly smaller
dates — it is the last entry attaining the maximum date. -/
theorem lastMaxBy_spec {α : Type} :
    ∀ (l : List (FinalStats α)) (s : FinalStats α), lastMaxBy l = some s →
      ∃ pre post, l = pre ++ s :: post ∧
        (∀ x ∈ pre, x.lastDate ≤ s.lastDate) ∧
        (∀ x ∈ post, x.lastDate < s.lastDate) := by
  intro l
  induction l with
  | nil => intro s h; rw [lastMaxBy] at h; cases h
  | cons a l ih =>
    intro s h
    rw [lastMaxBy] at h
    split at h
    · rename_i hl
      simp only [Option.some.injEq] at h
      subst h
      rw [lastMaxBy_eq_none l hl]
      exact ⟨[], [], rfl, by simp, by simp⟩
    · rename_i b hl
      rcases ih b hl with ⟨pre, post, hsplit, hpre, hpost⟩
      split at h
      · rename_i hlt
        simp only [Option.some.injEq] at h
        subst h
        refine ⟨[], l, rfl, by simp, ?_⟩
        intro x hx
        rw [hsplit] at hx
        rcases List.mem_append.mp hx with hx | hx
        · exact lt_of_le_of_lt (hpre x hx) hlt
        · rcases List.mem_cons.mp hx with hx | hx
          · rw [hx]; exact hlt
          · exact lt_trans (hpost x hx) hlt
      · rename_i hlt
        simp only [Option.some.injEq] at h
        subst h
        refine ⟨a :: pre, post, by simp [hsplit], ?_, hpost⟩
        intro x hx
        rcases List.mem_cons.mp hx with hx | hx
        · rw [hx]; exact le_of_not_lt hlt
        · exact hpre x hx

/-- Helper: when the selection function succeeds on every key, the tagged
`filterMap` keeps exactly the keys. -/
theorem filterMap_tag_keys {β : Type} (f : ℤ → Option β) :
    ∀ (ps : List ℤ), (∀ p ∈ ps, (f p).isSome) →
      ((ps.filterMap (fun p => (f p).map (fun s => (p, s)))).map Prod.fst) = ps := by
  intro ps
  induction ps with
  | nil => intro _; rfl
  | cons p ps ih =>
    intro hall
    rcases Option.isSome_iff_exists.mp (hall p (List.mem_cons_self p ps)) with ⟨s, hs⟩
    have hrest := ih (fun q hq => hall q (List.mem_cons_of_mem p hq))
    simp [List.filterMap_cons, hs, hrest]

/-- C8.  The summary reducer returns exactly one row per competitor
appearing in the ratings history (as winner or loser), and for each such
competitor the retained entry is the appearance with the maximum match
date, ties broken by the last occurrence in history order. -/
theorem final_stats_characterization {α : Type} (h : List (HistoryRow α)) :
    ((get_final_player_stats h).map Prod.fst).Nodup ∧
    (∀ p : ℤ, p ∈ (get_final_player_stats h).map Prod.fst ↔
      ∃ r ∈ h, r.winnerId = p ∨ r.loserId = p) ∧
    (∀ (p : ℤ) (s : FinalStats α), (p, s) ∈ get_final_player_stats h →
      ∃ pre post,
        ((appearanceList h).filter (fun a => decide (a.1 = p))).map Prod.snd =
          pre ++ s :: post ∧
        (∀ x ∈ pre, x.lastDate ≤ s.lastDate) ∧
        (∀ x ∈ post, x.lastDate < s.lastDate)) := by
  have hkeys : (get_final_player_stats h).map Prod.fst =
      ((appearanceList h).map Prod.fst).dedup := by
    apply filterMap_tag_keys
    intro p hp
    rcases List.mem_map.mp (List.mem_dedup.mp hp) with ⟨a, ha, hap⟩
    have hmem : a ∈ (appearanceList h).filter (fun a => decide (a.1 = p)) :=
      List.mem_filter.mpr ⟨ha, by simp [hap]⟩
    have hnil : ((appearanceList h).filter (fun a => decide (a.1 = p))).map Prod.snd ≠ [] := by
      simp only [ne_eq, List.map_eq_nil_iff]
      exact List.ne_nil_of_mem hmem
    cases hlm : lastMaxBy (((appearanceList h).filter
        (fun a => decide (a.1 = p))).map Prod.snd) with
    | none => exact absurd (lastMaxBy_eq_none _ hlm) hnil
    | some s => rfl
  refine ⟨?_, ?_, ?_⟩
  · rw [hkeys]
    exact List.nodup_dedup _
  · intro p
    rw [hkeys, List.mem_dedup]
    constructor
    · intro hp
      rcases List.mem_map.mp hp with ⟨a, ha, hap⟩
      rcases List.mem_flatMap.mp ha with ⟨r, hr, hside⟩
      refine ⟨r, hr, ?_⟩
      rcases List.mem_cons.mp hside with hs | hs
      · left
        rw [← hap, hs]
        rfl
      · rcases List.mem_cons.mp hs with hs | hs
        · right
          rw [← hap, hs]
          rfl
        · simp at hs
    · rintro ⟨r, hr, hp⟩
      apply List.mem_map.mpr
      rcases hp with hp | hp
      · exact ⟨sideStats r true,
          List.mem_flatMap.mpr ⟨r, hr, List.mem_cons_self _ _⟩, by rw [← hp]; rfl⟩
      · exact ⟨sideStats r false,
          List.mem_flatMap.mpr ⟨r, hr, List.mem_cons_of_mem _ (List.mem_cons_self _ _)⟩,
          by rw [← hp]; rfl⟩
  · intro p s hps
    rcases List.mem_filterMap.mp hps with ⟨q, _, hq⟩
    rcases Option.map_eq_some'.mp hq with ⟨s', hs', heq⟩
    have hqp : q = p := congrArg Prod.fst heq
    have hsp : s' = s := congrArg Prod.snd heq
    subst hqp
    subst hsp
    exact lastMaxBy_spec _ s' hs'

end TTS
